import Mathlib

/-!
Shallow embedding of the cargo-credential-bitwarden credential provider
(`src/main.rs`).

The program shells out to the Bitwarden CLI (`bw`). Every interaction with
the outside world (the process environment, subprocess outcomes, JSON
serialization and parsing of the `bw` wire format, URL host parsing, and the
cargo-credential token reader) is modelled by an `Env` record of oracle
functions, so the vault operations are pure functions of the `Env`.

Each operation returns its result together with the ordered list of external
commands it issued (an `Event` trace), which makes the ordering properties of
the source (signin before search, sync before list, sync after mutations,
token read after search) directly statable.
-/

namespace CargoBitwarden

/-- Bitwarden URI for a login item. The source field `r#match` is spelled
`rmatch` since `match` is a Lean keyword. `rmatch = some 1` means match by
host. -/
structure Uri where
  rmatch : Option Nat
  uri : String
deriving Repr, DecidableEq

/-- Bitwarden login item, from `ListItem::login`. -/
structure LoginItem where
  username : Option String
  password : String
  uris : List Uri
deriving Repr, DecidableEq

/-- Bitwarden item from `bw list items`. The source field `r#type` is spelled
`rtype`. -/
structure ListItem where
  id : String
  rtype : Nat
  name : String
  login : LoginItem
deriving Repr, DecidableEq

/-- Bitwarden item for `bw create item` (write-only analog of `ListItem`
without `id`). -/
structure ListItemCreateRequest where
  name : String
  login : LoginItem
  rtype : Nat
deriving Repr, DecidableEq

/-- The configuration parsed from this program's own argument list.
The source struct also carries `cmd_name`, resolved by probing the host for
the `bw` executable (`get_cmd_name`); executable resolution is a host-side
probe outside the argument-parsing logic and is left abstract here. -/
structure BitwardenVault where
  email_address : Option String
  auto_sync : Bool
deriving Repr, DecidableEq

/-- Errors of the credential process. `other` models
`cargo_credential::Error::Other` built from `format!` strings via `.into()`;
`aborted` models a process abort (the `unwrap` panic on a host-less parsed
URL in `create`). -/
inductive CredError where
  | notFound
  | operationNotSupported
  | other (msg : String)
  | aborted (msg : String)
deriving Repr, DecidableEq

/-- Outcome of spawning `bw` with stdout piped, as observed by `runCmd` and
`signin`: spawn failure, failure reading stdout, failure waiting for exit, or
a completed process with its success flag, displayed exit status, and
captured stdout. -/
inductive CmdOutcome where
  | spawnErr (msg : String)
  | readErr (msg : String)
  | waitErr (msg : String)
  | exited (success : Bool) (statusStr : String) (stdout : String)
deriving Repr, DecidableEq

/-- Outcome of spawning `bw encode` with stdin and stdout piped, as observed
by `encode`: in source order, spawn failure, failure writing stdin, failure
waiting, failure reading stdout, or a completed process. -/
inductive EncodeOutcome where
  | spawnErr (msg : String)
  | writeErr (msg : String)
  | waitErr (msg : String)
  | readErr (msg : String)
  | exited (success : Bool) (statusStr : String) (stdout : String)
deriving Repr, DecidableEq

/-- One external interaction issued by the program. Each constructor
corresponds to exactly one call site in the source: the `bw login --raw`
spawn in `signin`, the `list items` / `sync` / `encode` / `create item` /
`edit item` / `delete item` invocations of the item repository, and the
`cargo_credential::read_token` call of the dispatcher. -/
inductive Event where
  | loginCmd (args : List String)
  | listCmd (session : Option String) (url : String)
  | syncCmd (session : Option String)
  | encodeCmd (session : Option String) (stdin : String)
  | createCmd (session : Option String) (encoded : String)
  | editCmd (session : Option String) (id : String) (encoded : String)
  | deleteCmd (session : Option String) (id : String)
  | tokenRead
deriving Repr, DecidableEq

/-- An event that creates, edits, or deletes a vault entry. -/
def Event.isMutation : Event → Bool
  | .createCmd _ _ => true
  | .editCmd _ _ _ => true
  | .deleteCmd _ _ => true
  | _ => false

/-- An event issuing the `bw sync` command. -/
def Event.isSync : Event → Bool
  | .syncCmd _ => true
  | _ => false

/-- The external world as the program observes it:
whether `BW_SESSION` is set in the environment; the outcome of spawning `bw`
with a given argument list (stdout captured); the outcome of `bw encode`
given the session and the stdin payload; JSON parsing of `bw list items`
stdout into items (`serde_json::from_str`); JSON serialization of edit and
create request bodies (`serde_json::to_string` / `to_vec`); the result of
`cargo_credential::read_token`; and URL parsing (`Url::parse` followed by
`.host()`): `none` = the URL fails to parse, `some none` = parses but has no
host, `some (some h)` = parses with host `h`. -/
structure Env where
  hasBwSession : Bool
  run : List String → CmdOutcome
  encodeOutcome : Option String → String → EncodeOutcome
  parseListItems : String → Except String (List ListItem)
  serializeItem : ListItem → Except String String
  serializeCreate : ListItemCreateRequest → Except String String
  readTokenResult : Except CredError String
  parseUrlHost : String → Option (Option String)

/-- The guard `s.starts_with('-')` of the source's argument loop: whether the
first character of the string is a dash. -/
def startsWithDash (s : String) : Bool :=
  match s.data with
  | [] => false
  | c :: _ => c = '-'

/-- The argument-parsing loop of `BitwardenVault::new`: `--email` consumes
the next argument (error if absent), `--sync` sets auto-sync, any other
argument starting with `-` is an unknown option, anything else is a
positional argument error. -/
def parseArgs : List String → Option String → Bool → Except CredError (Option String × Bool)
  | [], email, auto_sync => .ok (email, auto_sync)
  | arg :: rest, email, auto_sync =>
    if arg = "--email" then
      match rest with
      | [] => .error (.other "--email needs an arg")
      | value :: rest' => parseArgs rest' (some value) auto_sync
    else if arg = "--sync" then
      parseArgs rest email true
    else if startsWithDash arg then .error (.other ("unknown option " ++ arg))
    else .error (.other "too many arguments")

/-- `BitwardenVault::new`: parse the process argument list. -/
def BitwardenVault.new (args : List String) : Except CredError BitwardenVault :=
  (parseArgs args none false).map fun p => { email_address := p.1, auto_sync := p.2 }

/-- The spec's description of an acceptable argument list, written from the
spec's words for comparison with `BitwardenVault.new`: the list consists of
`--email` followed by a value and/or `--sync`, in any order. -/
inductive SpecValidArgs : List String → Prop where
  | nil : SpecValidArgs []
  | email (value : String) (rest : List String) :
      SpecValidArgs rest → SpecValidArgs ("--email" :: value :: rest)
  | sync (rest : List String) :
      SpecValidArgs rest → SpecValidArgs ("--sync" :: rest)

/-- `BitwardenVault::make_cmd`: the fixed non-interactive flags, the session
argument when a session token is available, then the subcommand arguments. -/
def make_cmd (session : Option String) (args : List String) : List String :=
  ["--nointeraction", "--cleanexit"]
    ++ (match session with
        | some s => ["--session", s]
        | none => [])
    ++ args

/-- The source's command-running helper on the `BitwardenVault` struct: map a
subprocess outcome to the captured stdout on a zero exit, and to the source's
error strings otherwise. (Named `runCmd` here; the snake-case source spelling
is a reserved token in this Lean setup.) -/
def runCmd : CmdOutcome → Except CredError String
  | .spawnErr e => .error (.other ("failed to spawn `bw`: " ++ e))
  | .readErr e => .error (.other ("failed to read `bw` output: " ++ e))
  | .waitErr e => .error (.other ("failed to wait for `bw`: " ++ e))
  | .exited success statusStr stdout =>
    if success then .ok stdout
    else .error (.other ("`bw` command exit error: " ++ statusStr))

/-- The truncation `buffer.truncate(end)` at the first newline in `signin`:
keep the characters strictly before the first newline of the string. -/
def firstLine (s : String) : String :=
  ⟨s.data.takeWhile (fun c => c ≠ '\n')⟩

/-- The argument list of the `bw login --raw` spawn in `signin`: the
configured email address is appended when present. -/
def loginArgs (v : BitwardenVault) : List String :=
  ["login", "--raw"]
    ++ (match v.email_address with
        | some e => [e]
        | none => [])

/-- `BitwardenVault::signin`: trust a pre-existing `BW_SESSION` without
spawning anything; otherwise spawn `bw login --raw` (with the configured
email address appended when present), keep the first line of stdout as the
session token, and fail if the process exits non-zero. -/
def BitwardenVault.signin (v : BitwardenVault) (env : Env) :
    Except CredError (Option String) × List Event :=
  if env.hasBwSession then (.ok none, [])
  else
    match env.run (loginArgs v) with
    | .spawnErr e =>
      (.error (.other ("failed to spawn `bw`: " ++ e)), [Event.loginCmd (loginArgs v)])
    | .readErr e =>
      (.error (.other ("failed to get session from `bw`: " ++ e)), [Event.loginCmd (loginArgs v)])
    | .waitErr e =>
      (.error (.other ("failed to wait for `bw`: " ++ e)), [Event.loginCmd (loginArgs v)])
    | .exited success statusStr stdout =>
      if success then (.ok (some (firstLine stdout)), [Event.loginCmd (loginArgs v)])
      else
        (.error (.other ("failed to run `bw login`: " ++ statusStr)),
          [Event.loginCmd (loginArgs v)])

/-- `BitwardenVault::sync`: a no-op unless `auto_sync` is set; otherwise run
`bw sync` through `make_cmd`/`runCmd`. -/
def BitwardenVault.sync (v : BitwardenVault) (env : Env) (session : Option String) :
    Except CredError Unit × List Event :=
  if !v.auto_sync then (.ok (), [])
  else
    match runCmd (env.run (make_cmd session ["sync"])) with
    | .error e => (.error e, [Event.syncCmd session])
    | .ok _ => (.ok (), [Event.syncCmd session])

/-- The defensive re-filter of `search`: keep items with some login URI whose
`uri` equals the index URL exactly. -/
def uriMatches (index_url : String) (item : ListItem) : Bool :=
  item.login.uris.any (fun u => u.uri == index_url)

/-- `BitwardenVault::search`: sync (when enabled), list items filtered by the
tool's own URL filter, parse the JSON listing, re-filter by exact URI
equality, and return none / the unique match / an ambiguity error. -/
def BitwardenVault.search (v : BitwardenVault) (env : Env) (session : Option String)
    (index_url : String) : Except CredError (Option ListItem) × List Event :=
  match v.sync env session with
  | (.error e, tr) => (.error e, tr)
  | (.ok _, tr0) =>
    match runCmd (env.run (make_cmd session ["list", "items", "--url", index_url])) with
    | .error e => (.error e, tr0 ++ [Event.listCmd session index_url])
    | .ok buffer =>
      match env.parseListItems buffer with
      | .error e =>
        (.error (.other ("failed to deserialize JSON from Bitwarden list: " ++ e)),
          tr0 ++ [Event.listCmd session index_url])
      | .ok items =>
        match items.filter (uriMatches index_url) with
        | [] => (.ok none, tr0 ++ [Event.listCmd session index_url])
        | [item] => (.ok (some item), tr0 ++ [Event.listCmd session index_url])
        | _ =>
          (.error (.other ("too many Bitwarden logins match registry `" ++ index_url
            ++ "`, consider deleting the excess entries")),
            tr0 ++ [Event.listCmd session index_url])

/-- `BitwardenVault::encode`: pipe a payload through `bw encode` (stdin and
stdout piped) and capture the encoded form. -/
def BitwardenVault.encode (_v : BitwardenVault) (env : Env) (session : Option String)
    (data : String) : Except CredError String × List Event :=
  match env.encodeOutcome session data with
  | .spawnErr e =>
    (.error (.other ("failed to spawn `bw`: " ++ e)), [Event.encodeCmd session data])
  | .writeErr e =>
    (.error (.other ("failed to write to stdin: " ++ e)), [Event.encodeCmd session data])
  | .waitErr e =>
    (.error (.other ("failed to wait for `bw`: " ++ e)), [Event.encodeCmd session data])
  | .readErr e =>
    (.error (.other ("failed to read `bw` output: " ++ e)), [Event.encodeCmd session data])
  | .exited success statusStr stdout =>
    if success then (.ok stdout, [Event.encodeCmd session data])
    else
      (.error (.other ("`bw` command exit error: " ++ statusStr)),
        [Event.encodeCmd session data])

/-- The request body built at the start of `BitwardenVault::modify`: a clone
of the existing item with `login.password` overwritten by the new token and,
when a name is supplied, `name` overwritten by it. -/
def modifyRequest (item : ListItem) (token : String) (name : Option String) : ListItem :=
  let base : ListItem := { item with login := { item.login with password := token } }
  match name with
  | some n => { base with name := n }
  | none => base

/-- `BitwardenVault::modify`: build the modified request, serialize it,
encode it, run `bw edit item <id> <encoded>` addressed by the original item's
id, then sync if enabled. -/
def BitwardenVault.modify (v : BitwardenVault) (env : Env) (session : Option String)
    (item : ListItem) (token : String) (name : Option String) :
    Except CredError Unit × List Event :=
  match env.serializeItem (modifyRequest item token name) with
  | .error e => (.error (.other ("failed to deserialize new item: " ++ e)), [])
  | .ok data =>
    match v.encode env session data with
    | (.error e, tr) => (.error e, tr)
    | (.ok encoded, tr0) =>
      match runCmd (env.run (make_cmd session ["edit", "item", item.id, encoded])) with
      | .error e => (.error e, tr0 ++ [Event.editCmd session item.id encoded])
      | .ok _ =>
        match v.sync env session with
        | (.error e, trS) =>
          (.error e, tr0 ++ [Event.editCmd session item.id encoded] ++ trS)
        | (.ok _, trS) =>
          (.ok (), tr0 ++ [Event.editCmd session item.id encoded] ++ trS)

/-- The name computed at the start of `BitwardenVault::create`: a supplied
name, or else the host parsed from the index URL, or else the literal
`<unknown>` when the URL fails to parse; the chosen string is then prefixed
with the registry-token phrase. Returns `none` when the source would abort:
the URL parses but has no host (`url.host().unwrap()` panics). -/
def createName (parsedHost : Option (Option String)) (name : Option String) : Option String :=
  match name with
  | some n => some ("Cargo registry token for " ++ n)
  | none =>
    match parsedHost with
    | some (some host) => some ("Cargo registry token for " ++ host)
    | some none => none
    | none => some ("Cargo registry token for " ++ "<unknown>")

/-- The `ListItemCreateRequest` built by `BitwardenVault::create`: the
computed name, type 1 (login), the token as password, no username, and a
single URI entry for the index URL with match rule 1 (match by host). -/
def createRequest (parsedHost : Option (Option String)) (index_url : String) (token : String)
    (name : Option String) : Option ListItemCreateRequest :=
  (createName parsedHost name).map fun nm =>
    { name := nm
      rtype := 1
      login :=
        { password := token
          username := none
          uris := [{ uri := index_url, rmatch := some 1 }] } }

/-- `BitwardenVault::create`: build the create request, serialize it, encode
it, run `bw create item <encoded>`, then sync if enabled. -/
def BitwardenVault.create (v : BitwardenVault) (env : Env) (session : Option String)
    (index_url : String) (token : String) (name : Option String) :
    Except CredError Unit × List Event :=
  match createRequest (env.parseUrlHost index_url) index_url token name with
  | none => (.error (.aborted "no host in parsed registry index URL"), [])
  | some request =>
    match env.serializeCreate request with
    | .error e => (.error (.other ("failed to deserialize new item: " ++ e)), [])
    | .ok data =>
      match v.encode env session data with
      | (.error e, tr) => (.error e, tr)
      | (.ok encoded, tr0) =>
        match runCmd (env.run (make_cmd session ["create", "item", encoded])) with
        | .error e => (.error e, tr0 ++ [Event.createCmd session encoded])
        | .ok _ =>
          match v.sync env session with
          | (.error e, trS) =>
            (.error e, tr0 ++ [Event.createCmd session encoded] ++ trS)
          | (.ok _, trS) =>
            (.ok (), tr0 ++ [Event.createCmd session encoded] ++ trS)

/-- `BitwardenVault::delete`: run `bw delete item <id>`, then sync if
enabled. -/
def BitwardenVault.delete (v : BitwardenVault) (env : Env) (session : Option String)
    (id : String) : Except CredError Unit × List Event :=
  match runCmd (env.run (make_cmd session ["delete", "item", id])) with
  | .error e => (.error e, [Event.deleteCmd session id])
  | .ok _ =>
    match v.sync env session with
    | (.error e, trS) => (.error e, [Event.deleteCmd session id] ++ trS)
    | (.ok _, trS) => (.ok (), [Event.deleteCmd session id] ++ trS)

/-- The cargo-credential cache-control hint attached to a Get response. -/
inductive CacheControl where
  | never
  | session
  | expires
deriving Repr, DecidableEq

/-- The cargo-credential response returned by `perform`. -/
inductive CredentialResponse where
  | get (token : String) (cache : CacheControl) (operation_independent : Bool)
  | login
  | logout
deriving Repr, DecidableEq

/-- The cargo-credential action given to `perform`. `unknown` stands for the
wildcard arm of the source's match (any unsupported action). -/
inductive Action where
  | get
  | login
  | logout
  | unknown
deriving Repr, DecidableEq

/-- The registry information given to `perform`: its index URL and optional
human-readable name. -/
structure RegistryInfo where
  index_url : String
  name : Option String

/-- `Credential::perform` for `BitwardenCredential`: construct the vault from
the argument list, then dispatch the action onto signin + the item
repository as in the source. -/
def perform (registry : RegistryInfo) (action : Action) (args : List String) (env : Env) :
    Except CredError CredentialResponse × List Event :=
  match BitwardenVault.new args with
  | .error e => (.error e, [])
  | .ok op =>
    match action with
    | .get =>
      match op.signin env with
      | (.error e, tr) => (.error e, tr)
      | (.ok session, tr0) =>
        match op.search env session registry.index_url with
        | (.error e, tr1) => (.error e, tr0 ++ tr1)
        | (.ok (some item), tr1) =>
          (.ok (.get item.login.password .session true), tr0 ++ tr1)
        | (.ok none, tr1) => (.error .notFound, tr0 ++ tr1)
    | .login =>
      match op.signin env with
      | (.error e, tr) => (.error e, tr)
      | (.ok session, tr0) =>
        match op.search env session registry.index_url with
        | (.error e, tr1) => (.error e, tr0 ++ tr1)
        | (.ok (some item), tr1) =>
          match env.readTokenResult with
          | .error e => (.error e, tr0 ++ tr1 ++ [Event.tokenRead])
          | .ok token =>
            match op.modify env session item token registry.name with
            | (.error e, tr2) => (.error e, tr0 ++ tr1 ++ [Event.tokenRead] ++ tr2)
            | (.ok _, tr2) => (.ok .login, tr0 ++ tr1 ++ [Event.tokenRead] ++ tr2)
        | (.ok none, tr1) =>
          match env.readTokenResult with
          | .error e => (.error e, tr0 ++ tr1 ++ [Event.tokenRead])
          | .ok token =>
            match op.create env session registry.index_url token registry.name with
            | (.error e, tr2) => (.error e, tr0 ++ tr1 ++ [Event.tokenRead] ++ tr2)
            | (.ok _, tr2) => (.ok .login, tr0 ++ tr1 ++ [Event.tokenRead] ++ tr2)
    | .logout =>
      match op.signin env with
      | (.error e, tr) => (.error e, tr)
      | (.ok session, tr0) =>
        match op.search env session registry.index_url with
        | (.error e, tr1) => (.error e, tr0 ++ tr1)
        | (.ok (some item), tr1) =>
          match op.delete env session item.id with
          | (.error e, tr2) => (.error e, tr0 ++ tr1 ++ tr2)
          | (.ok _, tr2) => (.ok .logout, tr0 ++ tr1 ++ tr2)
        | (.ok none, tr1) => (.error .notFound, tr0 ++ tr1)
    | .unknown => (.error .operationNotSupported, [])

/-- A concrete URI entry used to evaluate the model on closed inputs. -/
def sampleUri : Uri := { rmatch := some 1, uri := "https://example.com/index" }

/-- A concrete vault item whose single URI is the sample registry URL. -/
def sampleItem : ListItem :=
  { id := "item-1"
    rtype := 1
    name := "Cargo registry token for example.com"
    login := { username := none, password := "tok-123", uris := [sampleUri] } }

/-- A concrete configuration with no email and auto-sync off. -/
def sampleVault : BitwardenVault := { email_address := none, auto_sync := false }

/-- A concrete configuration with auto-sync on. -/
def syncVault : BitwardenVault := { email_address := none, auto_sync := true }

/-- A concrete environment: `BW_SESSION` set, every spawn succeeds, listings
parse to the single sample item. -/
def sampleEnv : Env :=
  { hasBwSession := true
    run := fun _ => .exited true "exit status: 0" "listing"
    encodeOutcome := fun _ _ => .exited true "exit status: 0" "encoded"
    parseListItems := fun _ => .ok [sampleItem]
    serializeItem := fun _ => .ok "serialized"
    serializeCreate := fun _ => .ok "serialized"
    readTokenResult := .ok "tok-456"
    parseUrlHost := fun _ => some (some "example.com") }

/-- A concrete environment like `sampleEnv` but whose listings parse to no
items at all. -/
def emptyEnv : Env :=
  { sampleEnv with parseListItems := fun _ => .ok [] }

/-- A concrete environment like `sampleEnv` but whose listing output fails to
parse. -/
def badParseEnv : Env :=
  { sampleEnv with parseListItems := fun _ => .error "expected value at line 1 column 1" }

/-- A concrete environment with no `BW_SESSION`, where `bw login --raw`
prints a session token followed by extra output. -/
def noSessionEnv : Env :=
  { sampleEnv with
    hasBwSession := false
    run := fun _ => .exited true "exit status: 0" "sess-token\nextra" }

/-! ## Trace-shape helper lemmas -/

/-- Encode always issues exactly its one `bw encode` invocation. -/
theorem encode_trace (v : BitwardenVault) (env : Env) (session : Option String) (data : String) :
    (v.encode env session data).2 = [Event.encodeCmd session data] := by
  unfold BitwardenVault.encode
  cases env.encodeOutcome session data with
  | exited success statusStr stdout => cases success <;> rfl
  | _ => rfl

/-- With auto-sync disabled, sync does nothing and issues nothing. -/
theorem sync_noop (v : BitwardenVault) (env : Env) (session : Option String)
    (h : v.auto_sync = false) : v.sync env session = (.ok (), []) := by
  unfold BitwardenVault.sync
  simp [h]

/-- Sync issues either nothing or exactly one `bw sync` invocation. -/
theorem sync_trace_cases (v : BitwardenVault) (env : Env) (session : Option String) :
    (v.sync env session).2 = [] ∨ (v.sync env session).2 = [Event.syncCmd session] := by
  unfold BitwardenVault.sync
  split
  · exact Or.inl rfl
  · split <;> exact Or.inr rfl

/-- With auto-sync enabled, sync issues exactly one `bw sync` invocation. -/
theorem sync_trace_auto (v : BitwardenVault) (env : Env) (session : Option String)
    (h : v.auto_sync = true) : (v.sync env session).2 = [Event.syncCmd session] := by
  unfold BitwardenVault.sync
  rw [h]
  split
  · rename_i hc
    simp at hc
  · cases runCmd (env.run (make_cmd session ["sync"])) <;> rfl

/-- Signin issues either nothing or exactly one `bw login --raw` spawn. -/
theorem signin_trace_cases (v : BitwardenVault) (env : Env) :
    (v.signin env).2 = [] ∨ (v.signin env).2 = [Event.loginCmd (loginArgs v)] := by
  unfold BitwardenVault.signin
  split
  · exact Or.inl rfl
  · cases env.run (loginArgs v) with
    | exited success statusStr stdout => cases success <;> exact Or.inr rfl
    | _ => exact Or.inr rfl

/-- Search's trace is the sync trace, optionally followed by the one
`list items` invocation. -/
theorem search_trace_cases (v : BitwardenVault) (env : Env) (session : Option String)
    (index_url : String) :
    (v.search env session index_url).2 = (v.sync env session).2 ∨
    (v.search env session index_url).2 =
      (v.sync env session).2 ++ [Event.listCmd session index_url] := by
  unfold BitwardenVault.search
  cases hs : v.sync env session with
  | mk r tr0 =>
    cases r with
    | error e => exact Or.inl rfl
    | ok u =>
      right
      dsimp only
      cases runCmd (env.run (make_cmd session ["list", "items", "--url", index_url])) with
      | error e => rfl
      | ok buffer =>
        dsimp only
        cases env.parseListItems buffer with
        | error e => rfl
        | ok items =>
          dsimp only
          rcases List.filter (uriMatches index_url) items with _ | ⟨a, _ | ⟨b, l⟩⟩ <;> rfl

/-- No event issued by signin mutates a vault entry. -/
theorem signin_mutfree (v : BitwardenVault) (env : Env) :
    ∀ e ∈ (v.signin env).2, e.isMutation = false := by
  rcases signin_trace_cases v env with h | h <;> rw [h] <;> simp [Event.isMutation]

/-- No event issued by sync mutates a vault entry. -/
theorem sync_mutfree (v : BitwardenVault) (env : Env) (session : Option String) :
    ∀ e ∈ (v.sync env session).2, e.isMutation = false := by
  rcases sync_trace_cases v env session with h | h <;> rw [h] <;> simp [Event.isMutation]

/-- No event issued by search mutates a vault entry. -/
theorem search_mutfree (v : BitwardenVault) (env : Env) (session : Option String)
    (index_url : String) :
    ∀ e ∈ (v.search env session index_url).2, e.isMutation = false := by
  rcases search_trace_cases v env session index_url with h | h <;> rw [h]
  · exact sync_mutfree v env session
  · intro e he
    rcases List.mem_append.mp he with h' | h'
    · exact sync_mutfree v env session e h'
    · simp only [List.mem_singleton] at h'
      subst h'
      rfl

/-- Every mutating event issued by modify is the one edit command addressed
by the original item's id. -/
theorem modify_mut_only_edit (v : BitwardenVault) (env : Env) (session : Option String)
    (item : ListItem) (token : String) (name : Option String) :
    ∀ e ∈ (v.modify env session item token name).2, e.isMutation = true →
      ∃ enc, e = Event.editCmd session item.id enc := by
  unfold BitwardenVault.modify
  cases env.serializeItem (modifyRequest item token name) with
  | error e => simp
  | ok data =>
    dsimp only
    cases henc : v.encode env session data with
    | mk r trE =>
      have htrE : trE = [Event.encodeCmd session data] := by
        have h := encode_trace v env session data
        rw [henc] at h
        exact h
      subst htrE
      cases r with
      | error e => simp [Event.isMutation]
      | ok encoded =>
        dsimp only
        cases runCmd (env.run (make_cmd session ["edit", "item", item.id, encoded])) with
        | error e =>
          intro ev hev hm
          simp only [List.cons_append, List.nil_append, List.mem_cons,
            List.not_mem_nil, or_false] at hev
          rcases hev with hev | hev
          · subst hev
            simp [Event.isMutation] at hm
          · subst hev
            exact ⟨encoded, rfl⟩
        | ok out =>
          dsimp only
          cases hsy : v.sync env session with
          | mk rs trS =>
            have htrS : trS = [] ∨ trS = [Event.syncCmd session] := by
              have h := sync_trace_cases v env session
              rw [hsy] at h
              exact h
            cases rs <;>
            · intro ev hev hm
              simp only [List.cons_append, List.nil_append, List.mem_cons,
                List.mem_append, List.mem_singleton] at hev
              rcases hev with hev | hev | hev
              · subst hev
                simp [Event.isMutation] at hm
              · subst hev
                exact ⟨encoded, rfl⟩
              · rcases htrS with h' | h' <;> subst h'
                · simp at hev
                · simp only [List.mem_singleton] at hev
                  subst hev
                  simp [Event.isMutation] at hm

/-! ## Argument-parsing lemmas -/

/-- Unfolding equation for the `--email` branch of `parseArgs`. -/
theorem parseArgs_email_cons (value : String) (rest : List String) (email : Option String)
    (auto : Bool) :
    parseArgs ("--email" :: value :: rest) email auto = parseArgs rest (some value) auto := by
  conv_lhs => rw [parseArgs.eq_def]
  simp

/-- Unfolding equation for a trailing `--email`. -/
theorem parseArgs_email_last (email : Option String) (auto : Bool) :
    parseArgs ["--email"] email auto = .error (.other "--email needs an arg") := by
  rfl

/-- Unfolding equation for the `--sync` branch of `parseArgs`. -/
theorem parseArgs_sync_cons (rest : List String) (email : Option String) (auto : Bool) :
    parseArgs ("--sync" :: rest) email auto = parseArgs rest email true := by
  conv_lhs => rw [parseArgs.eq_def]
  simp

/-- Unfolding equation for an argument that is neither `--email` nor
`--sync`. -/
theorem parseArgs_other_cons {s : String} (hs1 : s ≠ "--email") (hs2 : s ≠ "--sync")
    (rest : List String) (email : Option String) (auto : Bool) :
    parseArgs (s :: rest) email auto =
      (if startsWithDash s then .error (.other ("unknown option " ++ s))
       else .error (.other "too many arguments")) := by
  conv_lhs => rw [parseArgs.eq_def]
  simp [hs1, hs2]

/-- A spec-valid argument list parses successfully from any accumulator. -/
theorem parseArgs_ok_of_valid {args : List String} (h : SpecValidArgs args) :
    ∀ email auto, ∃ p, parseArgs args email auto = .ok p := by
  induction h with
  | nil => exact fun email auto => ⟨(email, auto), rfl⟩
  | email value rest hr ih =>
    intro email auto
    rw [parseArgs_email_cons]
    exact ih (some value) auto
  | sync rest hr ih =>
    intro email auto
    rw [parseArgs_sync_cons]
    exact ih email true

/-- An argument list that parses successfully is spec-valid. -/
theorem parseArgs_valid_of_ok :
    ∀ (n : Nat) (args : List String), args.length ≤ n →
      ∀ email auto p, parseArgs args email auto = .ok p → SpecValidArgs args := by
  intro n
  induction n with
  | zero =>
    intro args hlen email auto p hp
    cases args with
    | nil => exact .nil
    | cons a rest => simp at hlen
  | succ n ih =>
    intro args hlen email auto p hp
    cases args with
    | nil => exact .nil
    | cons a rest =>
      by_cases h1 : a = "--email"
      · subst h1
        cases rest with
        | nil => rw [parseArgs_email_last] at hp; exact absurd hp (by simp)
        | cons value rest' =>
          rw [parseArgs_email_cons] at hp
          refine SpecValidArgs.email value rest' (ih rest' ?_ (some value) auto p hp)
          simp only [List.length_cons] at hlen ⊢
          omega
      · by_cases h2 : a = "--sync"
        · subst h2
          rw [parseArgs_sync_cons] at hp
          refine SpecValidArgs.sync rest (ih rest ?_ email true p hp)
          simp only [List.length_cons] at hlen
          omega
        · rw [parseArgs_other_cons h1 h2] at hp
          split at hp <;> exact absurd hp (by simp)

/-- A successful parse reports auto-sync only if the accumulator already had
it or `--sync` occurs in the list. -/
theorem parseArgs_auto_sync_mem :
    ∀ (n : Nat) (args : List String), args.length ≤ n →
      ∀ email auto p, parseArgs args email auto = .ok p → p.2 = true →
        auto = true ∨ "--sync" ∈ args := by
  intro n
  induction n with
  | zero =>
    intro args hlen email auto p hp h2
    cases args with
    | nil =>
      left
      simp only [parseArgs, Except.ok.injEq] at hp
      rw [← hp] at h2
      exact h2
    | cons a rest => simp at hlen
  | succ n ih =>
    intro args hlen email auto p hp h2
    cases args with
    | nil =>
      left
      simp only [parseArgs, Except.ok.injEq] at hp
      rw [← hp] at h2
      exact h2
    | cons a rest =>
      by_cases h1 : a = "--email"
      · subst h1
        cases rest with
        | nil => rw [parseArgs_email_last] at hp; exact absurd hp (by simp)
        | cons value rest' =>
          rw [parseArgs_email_cons] at hp
          have hlen' : rest'.length ≤ n := by
            simp only [List.length_cons] at hlen
            omega
          rcases ih rest' hlen' (some value) auto p hp h2 with h | h
          · exact Or.inl h
          · exact Or.inr (by simp [h])
      · by_cases hs : a = "--sync"
        · subst hs
          exact Or.inr (List.mem_cons_self _ _)
        · rw [parseArgs_other_cons h1 hs] at hp
          split at hp <;> exact absurd hp (by simp)

/-- Parsing a spec-valid block list followed by a tail continues into the
tail with some accumulator. -/
theorem parseArgs_append_valid {l : List String} (h : SpecValidArgs l) :
    ∀ tail email auto, ∃ email' auto',
      parseArgs (l ++ tail) email auto = parseArgs tail email' auto' := by
  induction h with
  | nil => exact fun tail email auto => ⟨email, auto, rfl⟩
  | email value rest hr ih =>
    intro tail email auto
    rw [List.cons_append, List.cons_append, parseArgs_email_cons]
    exact ih tail (some value) auto
  | sync rest hr ih =>
    intro tail email auto
    rw [List.cons_append, parseArgs_sync_cons]
    exact ih tail email true

/-! ## Claim theorems -/

/-- C8: whenever the environment exposes `BW_SESSION`, signin returns
without invoking the login subcommand and without validating the
pre-supplied session (no external command at all); otherwise it issues
exactly one `bw login --raw` spawn, scoped to the configured account
identifier when one was given, captures the first line of stdout as the
session token on a zero exit, and fails with the signin error on a non-zero
exit. -/
theorem signin_session_bypass_and_unlock (v : BitwardenVault) (env : Env) :
    (env.hasBwSession = true → v.signin env = (.ok none, [])) ∧
    (env.hasBwSession = false →
      (v.signin env).2 = [Event.loginCmd (loginArgs v)] ∧
      loginArgs v = ["login", "--raw"]
        ++ (match v.email_address with
            | some e => [e]
            | none => []) ∧
      (∀ statusStr stdout, env.run (loginArgs v) = .exited true statusStr stdout →
        (v.signin env).1 = .ok (some (firstLine stdout))) ∧
      (∀ statusStr stdout, env.run (loginArgs v) = .exited false statusStr stdout →
        (v.signin env).1 =
          .error (.other ("failed to run `bw login`: " ++ statusStr)))) := by
  constructor
  · intro h
    simp [BitwardenVault.signin, h]
  · intro h
    refine ⟨?_, rfl, ?_, ?_⟩
    · unfold BitwardenVault.signin
      rw [h]
      simp only [Bool.false_eq_true, if_false]
      cases env.run (loginArgs v) with
      | exited success st out => cases success <;> rfl
      | _ => rfl
    · intro st out hrun
      simp [BitwardenVault.signin, h, hrun]
    · intro st out hrun
      simp [BitwardenVault.signin, h, hrun]

/-- Witness for the signin claim at concrete environments: with `BW_SESSION`
set nothing is spawned, and without it the first stdout line becomes the
session. -/
theorem signin_session_bypass_and_unlock_witness :
    sampleEnv.hasBwSession = true ∧
    sampleVault.signin sampleEnv = (.ok none, []) ∧
    noSessionEnv.hasBwSession = false ∧
    (sampleVault.signin noSessionEnv).1 = .ok (some "sess-token") := by
  refine ⟨rfl, (signin_session_bypass_and_unlock sampleVault sampleEnv).1 rfl, rfl, ?_⟩
  have h := ((signin_session_bypass_and_unlock sampleVault noSessionEnv).2 rfl).2.2.1
    "exit status: 0" "sess-token\nextra" rfl
  have hfl : firstLine "sess-token\nextra" = "sess-token" := by decide
  rw [h, hfl]

/-- C9: construction succeeds exactly when the argument list is a sequence
of `--email value` and `--sync` blocks in any order; a trailing `--email`,
any other argument starting with a dash, and any positional argument each
produce the corresponding startup error; and a successful construction has
auto-sync enabled only if `--sync` occurs in the list. -/
theorem new_accepts_exactly_spec_args (args : List String) :
    ((∃ c, BitwardenVault.new args = .ok c) ↔ SpecValidArgs args) ∧
    (∀ c, BitwardenVault.new args = .ok c → c.auto_sync = true → "--sync" ∈ args) ∧
    (∀ l, SpecValidArgs l →
      BitwardenVault.new (l ++ ["--email"]) = .error (.other "--email needs an arg")) ∧
    (∀ l s rest, SpecValidArgs l → startsWithDash s = true → s ≠ "--email" → s ≠ "--sync" →
      BitwardenVault.new (l ++ s :: rest) = .error (.other ("unknown option " ++ s))) ∧
    (∀ l s rest, SpecValidArgs l → startsWithDash s = false →
      BitwardenVault.new (l ++ s :: rest) = .error (.other "too many arguments")) := by
  refine ⟨⟨?_, ?_⟩, ?_, ?_, ?_, ?_⟩
  · rintro ⟨c, hc⟩
    unfold BitwardenVault.new at hc
    cases hp : parseArgs args none false with
    | error e => rw [hp] at hc; exact absurd hc (by simp [Except.map])
    | ok p => exact parseArgs_valid_of_ok args.length args le_rfl none false p hp
  · intro h
    obtain ⟨p, hp⟩ := parseArgs_ok_of_valid h none false
    refine ⟨⟨p.1, p.2⟩, ?_⟩
    unfold BitwardenVault.new
    rw [hp]
    rfl
  · intro c hc hauto
    unfold BitwardenVault.new at hc
    cases hp : parseArgs args none false with
    | error e => rw [hp] at hc; exact absurd hc (by simp [Except.map])
    | ok p =>
      rw [hp] at hc
      simp only [Except.map, Except.ok.injEq] at hc
      have hp2 : p.2 = true := by rw [← hc] at hauto; exact hauto
      rcases parseArgs_auto_sync_mem args.length args le_rfl none false p hp hp2 with hf | hm
      · exact absurd hf (by simp)
      · exact hm
  · intro l hl
    obtain ⟨e', a', ha⟩ := parseArgs_append_valid hl ["--email"] none false
    unfold BitwardenVault.new
    rw [ha, parseArgs_email_last]
    rfl
  · intro l s rest hl hdash h1 h2
    obtain ⟨e', a', ha⟩ := parseArgs_append_valid hl (s :: rest) none false
    unfold BitwardenVault.new
    rw [ha, parseArgs_other_cons h1 h2, if_pos hdash]
    rfl
  · intro l s rest hl hdash
    obtain ⟨e', a', ha⟩ := parseArgs_append_valid hl (s :: rest) none false
    have h1 : s ≠ "--email" := by
      intro h
      rw [h] at hdash
      exact absurd hdash (by decide)
    have h2 : s ≠ "--sync" := by
      intro h
      rw [h] at hdash
      exact absurd hdash (by decide)
    unfold BitwardenVault.new
    rw [ha, parseArgs_other_cons h1 h2, if_neg (by simp [hdash])]
    rfl

/-- Witness for the argument-parsing claim at concrete argument lists. -/
theorem new_accepts_exactly_spec_args_witness :
    (∃ c, BitwardenVault.new ["--email", "user@example.com", "--sync"] = .ok c) ∧
    BitwardenVault.new ["--email"] = .error (.other "--email needs an arg") ∧
    BitwardenVault.new ["--verbose"] = .error (.other "unknown option --verbose") ∧
    BitwardenVault.new ["registry"] = .error (.other "too many arguments") := by
  refine ⟨?_, ?_, ?_, ?_⟩
  · exact (new_accepts_exactly_spec_args _).1.mpr
      (.email "user@example.com" ["--sync"] (.sync [] .nil))
  · exact (new_accepts_exactly_spec_args []).2.2.1 [] .nil
  · exact (new_accepts_exactly_spec_args []).2.2.2.1 [] "--verbose" [] .nil
      (by decide) (by decide) (by decide)
  · exact (new_accepts_exactly_spec_args []).2.2.2.2 [] "registry" [] .nil (by decide)

/-- C1: on a well-parsed listing, search keeps exactly the items with some
login URI equal to the queried index URL; zero remaining items give
`none` ("not found"), exactly one gives that item and no other, and two or
more give the ambiguity error naming the index URL — never a successful
result. -/
theorem search_exact_filter_cases (v : BitwardenVault) (env : Env) (session : Option String)
    (index_url buffer : String) (items : List ListItem)
    (hsync : (v.sync env session).1 = .ok ())
    (hrun : runCmd (env.run (make_cmd session ["list", "items", "--url", index_url])) =
      .ok buffer)
    (hparse : env.parseListItems buffer = .ok items) :
    ((v.search env session index_url).1 = .ok none ↔
      items.filter (uriMatches index_url) = []) ∧
    (∀ item, (v.search env session index_url).1 = .ok (some item) ↔
      items.filter (uriMatches index_url) = [item]) ∧
    (2 ≤ (items.filter (uriMatches index_url)).length →
      (v.search env session index_url).1 =
        .error (.other ("too many Bitwarden logins match registry `" ++ index_url
          ++ "`, consider deleting the excess entries"))) := by
  have hpair : v.sync env session = (Except.ok (), (v.sync env session).2) := by
    rw [← hsync]
  unfold BitwardenVault.search
  rw [hpair]
  dsimp only
  rw [hrun]
  dsimp only
  rw [hparse]
  dsimp only
  cases hF : List.filter (uriMatches index_url) items with
  | nil => simp
  | cons a tl =>
    cases tl with
    | nil => simp
    | cons b tl2 =>
      refine ⟨by simp, fun item => by simp, fun _ => rfl⟩

/-- Witness for the search claim: on a listing with exactly one matching
item, search returns that item. -/
theorem search_exact_filter_cases_witness :
    (sampleVault.search sampleEnv none "https://example.com/index").1 =
      .ok (some sampleItem) := by
  have h := (search_exact_filter_cases sampleVault sampleEnv none
    "https://example.com/index" "listing" [sampleItem] rfl rfl rfl).2.1 sampleItem
  exact h.mpr (by decide)

/-- C7: a non-zero exit becomes a typed error carrying the exit status, a
zero exit yields the captured stdout, search maps an unparsable listing to a
typed error carrying the parse diagnostic, and search reports "not found"
only after a successful, well-parsed listing with zero URI matches. -/
theorem vault_errors_propagate (v : BitwardenVault) (env : Env) (session : Option String)
    (index_url : String) :
    (∀ statusStr stdout, runCmd (.exited false statusStr stdout) =
      .error (.other ("`bw` command exit error: " ++ statusStr))) ∧
    (∀ statusStr stdout, runCmd (.exited true statusStr stdout) = .ok stdout) ∧
    (∀ buffer e, (v.sync env session).1 = .ok () →
      runCmd (env.run (make_cmd session ["list", "items", "--url", index_url])) = .ok buffer →
      env.parseListItems buffer = .error e →
      (v.search env session index_url).1 =
        .error (.other ("failed to deserialize JSON from Bitwarden list: " ++ e))) ∧
    ((v.search env session index_url).1 = .ok none →
      ∃ buffer items,
        runCmd (env.run (make_cmd session ["list", "items", "--url", index_url])) =
          .ok buffer ∧
        env.parseListItems buffer = .ok items ∧
        items.filter (uriMatches index_url) = []) := by
  refine ⟨fun statusStr stdout => rfl, fun statusStr stdout => rfl, ?_, ?_⟩
  · intro buffer e hsync hrun hparse
    have hpair : v.sync env session = (Except.ok (), (v.sync env session).2) := by
      rw [← hsync]
    unfold BitwardenVault.search
    rw [hpair]
    dsimp only
    rw [hrun]
    dsimp only
    rw [hparse]
  · intro h
    unfold BitwardenVault.search at h
    cases hs : v.sync env session with
    | mk r tr0 =>
      rw [hs] at h
      cases r with
      | error e => exact absurd h (by simp)
      | ok u =>
        dsimp only at h
        cases hr : runCmd (env.run (make_cmd session ["list", "items", "--url", index_url])) with
        | error e => rw [hr] at h; exact absurd h (by simp)
        | ok buffer =>
          rw [hr] at h
          dsimp only at h
          cases hp : env.parseListItems buffer with
          | error e => rw [hp] at h; exact absurd h (by simp)
          | ok items =>
            rw [hp] at h
            dsimp only at h
            cases hF : List.filter (uriMatches index_url) items with
            | nil => exact ⟨buffer, items, rfl, hp, hF⟩
            | cons a tl =>
              rw [hF] at h
              cases tl with
              | nil => exact absurd h (by simp)
              | cons b tl2 => exact absurd h (by simp)

/-- Witness for the error-propagation claim: a non-zero exit carries its
status, and a parse failure surfaces its diagnostic instead of "not
found". -/
theorem vault_errors_propagate_witness :
    runCmd (.exited false "exit status: 1" "") =
      .error (.other "`bw` command exit error: exit status: 1") ∧
    (sampleVault.search badParseEnv none "https://example.com/index").1 =
      .error (.other
        "failed to deserialize JSON from Bitwarden list: expected value at line 1 column 1") := by
  constructor
  · exact (vault_errors_propagate sampleVault sampleEnv none "x").1 "exit status: 1" ""
  · exact (vault_errors_propagate sampleVault badParseEnv none "https://example.com/index").2.2.1
      "listing" "expected value at line 1 column 1" rfl rfl rfl

/-- C4: the edit request is the pre-modify item with only `login.password`
replaced by the token and, when supplied, `name` replaced by the supplied
name; id, type, username, and uris are unchanged; and the edit command is
addressed by the original item's id. -/
theorem modify_frame (item : ListItem) (token : String) :
    (∀ n, modifyRequest item token (some n) =
      { item with name := n, login := { item.login with password := token } }) ∧
    (modifyRequest item token none =
      { item with login := { item.login with password := token } }) ∧
    (∀ name, (modifyRequest item token name).id = item.id ∧
      (modifyRequest item token name).rtype = item.rtype ∧
      (modifyRequest item token name).login.username = item.login.username ∧
      (modifyRequest item token name).login.uris = item.login.uris ∧
      (modifyRequest item token name).login.password = token) ∧
    (∀ (v : BitwardenVault) (env : Env) (session : Option String) (name : Option String)
        (data encoded : String),
      env.serializeItem (modifyRequest item token name) = .ok data →
      (v.encode env session data).1 = .ok encoded →
      Event.editCmd session item.id encoded ∈ (v.modify env session item token name).2) ∧
    (∀ (v : BitwardenVault) (env : Env) (session : Option String) (name : Option String),
      ∀ e ∈ (v.modify env session item token name).2, e.isMutation = true →
        ∃ enc, e = Event.editCmd session item.id enc) := by
  refine ⟨fun n => rfl, rfl, ?_, ?_, ?_⟩
  · intro name
    cases name <;> exact ⟨rfl, rfl, rfl, rfl, rfl⟩
  · intro v env session name data encoded hser henc
    have hpair : v.encode env session data = (.ok encoded, [Event.encodeCmd session data]) := by
      have h2 := encode_trace v env session data
      rw [← henc, ← h2]
    unfold BitwardenVault.modify
    rw [hser]
    dsimp only
    rw [hpair]
    dsimp only
    cases runCmd (env.run (make_cmd session ["edit", "item", item.id, encoded])) with
    | error e => simp
    | ok out =>
      dsimp only
      cases v.sync env session with
      | mk rs trS => cases rs <;> simp
  · exact fun v env session name => modify_mut_only_edit v env session item token name

/-- Witness for the modify claim: on a concrete environment the edit command
carries the sample item's id. -/
theorem modify_frame_witness :
    Event.editCmd none sampleItem.id "encoded" ∈
      (sampleVault.modify sampleEnv none sampleItem "tok-456" none).2 := by
  exact (modify_frame sampleItem "tok-456").2.2.2.1 sampleVault sampleEnv none none
    "serialized" "encoded" rfl rfl

/-- C5: the create request has type 1 (login), a single URI entry for the
index URL with host-match rule 1, password equal to the token, and — when no
name is supplied — the default name built from the host parsed out of the
index URL, falling back to the literal `<unknown>` when the URL fails to
parse. -/
theorem create_request_shape (index_url token : String) :
    (∀ host, createRequest (some (some host)) index_url token none =
      some { name := "Cargo registry token for " ++ host
             rtype := 1
             login := { username := none, password := token,
                        uris := [{ rmatch := some 1, uri := index_url }] } }) ∧
    (createRequest none index_url token none =
      some { name := "Cargo registry token for <unknown>"
             rtype := 1
             login := { username := none, password := token,
                        uris := [{ rmatch := some 1, uri := index_url }] } }) := by
  constructor
  · intro host
    rfl
  · rfl

/-- C10: create prefixes even a caller-supplied name with the registry-token
phrase, while modify stores a supplied name verbatim. -/
theorem supplied_name_prefix_asymmetry :
    (∀ (parsedHost : Option (Option String)) (index_url token n : String),
      createRequest parsedHost index_url token (some n) =
        some { name := "Cargo registry token for " ++ n
               rtype := 1
               login := { username := none, password := token,
                          uris := [{ rmatch := some 1, uri := index_url }] } }) ∧
    (∀ (item : ListItem) (token n : String),
      (modifyRequest item token (some n)).name = n) := by
  exact ⟨fun _ _ _ _ => rfl, fun _ _ _ => rfl⟩

/-- C6: synchronization is a no-op unless the auto-sync flag was set at
startup; with it set, a search issues `sync` strictly before its
`list items` command, and delete, modify, and create issue `sync` only
strictly after their primary command — and do issue it when they succeed. -/
theorem sync_ordering (v : BitwardenVault) (env : Env) (session : Option String)
    (index_url token id : String) (item : ListItem) (name : Option String) :
    (v.auto_sync = false → v.sync env session = (.ok (), [])) ∧
    (v.auto_sync = true →
      ((v.search env session index_url).2 = [Event.syncCmd session] ∨
       (v.search env session index_url).2 =
         [Event.syncCmd session, Event.listCmd session index_url]) ∧
      ((v.delete env session id).2 = [Event.deleteCmd session id] ∨
       (v.delete env session id).2 =
         [Event.deleteCmd session id, Event.syncCmd session]) ∧
      ((v.delete env session id).1 = .ok () →
        (v.delete env session id).2 =
          [Event.deleteCmd session id, Event.syncCmd session]) ∧
      ((v.modify env session item token name).2 = [] ∨
       (∃ d, (v.modify env session item token name).2 = [Event.encodeCmd session d]) ∨
       (∃ d enc, (v.modify env session item token name).2 =
         [Event.encodeCmd session d, Event.editCmd session item.id enc]) ∨
       (∃ d enc, (v.modify env session item token name).2 =
         [Event.encodeCmd session d, Event.editCmd session item.id enc,
          Event.syncCmd session])) ∧
      ((v.modify env session item token name).1 = .ok () →
        ∃ d enc, (v.modify env session item token name).2 =
          [Event.encodeCmd session d, Event.editCmd session item.id enc,
           Event.syncCmd session]) ∧
      ((v.create env session index_url token name).2 = [] ∨
       (∃ d, (v.create env session index_url token name).2 = [Event.encodeCmd session d]) ∨
       (∃ d enc, (v.create env session index_url token name).2 =
         [Event.encodeCmd session d, Event.createCmd session enc]) ∨
       (∃ d enc, (v.create env session index_url token name).2 =
         [Event.encodeCmd session d, Event.createCmd session enc,
          Event.syncCmd session])) ∧
      ((v.create env session index_url token name).1 = .ok () →
        ∃ d enc, (v.create env session index_url token name).2 =
          [Event.encodeCmd session d, Event.createCmd session enc,
           Event.syncCmd session])) := by
  refine ⟨sync_noop v env session, ?_⟩
  intro hauto
  have hsyncTr : (v.sync env session).2 = [Event.syncCmd session] :=
    sync_trace_auto v env session hauto
  refine ⟨?_, ?_, ?_, ?_, ?_, ?_, ?_⟩
  · rcases search_trace_cases v env session index_url with h | h <;> rw [h, hsyncTr]
    · exact Or.inl rfl
    · exact Or.inr rfl
  · unfold BitwardenVault.delete
    cases runCmd (env.run (make_cmd session ["delete", "item", id])) with
    | error e => exact Or.inl rfl
    | ok out =>
      dsimp only
      cases hsy : v.sync env session with
      | mk rs trS =>
        rw [hsy] at hsyncTr
        dsimp only at hsyncTr
        subst hsyncTr
        cases rs <;> exact Or.inr rfl
  · intro hok
    unfold BitwardenVault.delete at hok ⊢
    cases hr : runCmd (env.run (make_cmd session ["delete", "item", id])) with
    | error e =>
      rw [hr] at hok
      exact absurd hok (by simp)
    | ok out =>
      rw [hr] at hok
      dsimp only at hok ⊢
      cases hsy : v.sync env session with
      | mk rs trS =>
        rw [hsy] at hok hsyncTr
        dsimp only at hsyncTr
        subst hsyncTr
        cases rs with
        | error e =>
          dsimp only at hok
          exact absurd hok (by simp)
        | ok u => rfl
  · unfold BitwardenVault.modify
    cases env.serializeItem (modifyRequest item token name) with
    | error e => exact Or.inl rfl
    | ok data =>
      dsimp only
      cases henc : v.encode env session data with
      | mk r trE =>
        have htrE : trE = [Event.encodeCmd session data] := by
          have h := encode_trace v env session data
          rw [henc] at h
          exact h
        subst htrE
        cases r with
        | error e => exact Or.inr (Or.inl ⟨data, rfl⟩)
        | ok encoded =>
          dsimp only
          cases runCmd (env.run (make_cmd session ["edit", "item", item.id, encoded])) with
          | error e => exact Or.inr (Or.inr (Or.inl ⟨data, encoded, rfl⟩))
          | ok out =>
            dsimp only
            cases hsy : v.sync env session with
            | mk rs trS =>
              rw [hsy] at hsyncTr
              dsimp only at hsyncTr
              subst hsyncTr
              cases rs <;> exact Or.inr (Or.inr (Or.inr ⟨data, encoded, rfl⟩))
  · intro hok
    unfold BitwardenVault.modify at hok ⊢
    cases hser : env.serializeItem (modifyRequest item token name) with
    | error e =>
      rw [hser] at hok
      exact absurd hok (by simp)
    | ok data =>
      rw [hser] at hok
      dsimp only at hok ⊢
      cases henc : v.encode env session data with
      | mk r trE =>
        rw [henc] at hok
        have htrE : trE = [Event.encodeCmd session data] := by
          have h := encode_trace v env session data
          rw [henc] at h
          exact h
        subst htrE
        cases r with
        | error e =>
          dsimp only at hok
          exact absurd hok (by simp)
        | ok encoded =>
          dsimp only at hok ⊢
          cases hr : runCmd (env.run (make_cmd session ["edit", "item", item.id, encoded])) with
          | error e =>
            rw [hr] at hok
            exact absurd hok (by simp)
          | ok out =>
            rw [hr] at hok
            dsimp only at hok ⊢
            cases hsy : v.sync env session with
            | mk rs trS =>
              rw [hsy] at hok hsyncTr
              dsimp only at hsyncTr
              subst hsyncTr
              cases rs with
              | error e =>
                dsimp only at hok
                exact absurd hok (by simp)
              | ok u => exact ⟨data, encoded, rfl⟩
  · unfold BitwardenVault.create
    cases createRequest (env.parseUrlHost index_url) index_url token name with
    | none => exact Or.inl rfl
    | some request =>
      dsimp only
      cases env.serializeCreate request with
      | error e => exact Or.inl rfl
      | ok data =>
        dsimp only
        cases henc : v.encode env session data with
        | mk r trE =>
          have htrE : trE = [Event.encodeCmd session data] := by
            have h := encode_trace v env session data
            rw [henc] at h
            exact h
          subst htrE
          cases r with
          | error e => exact Or.inr (Or.inl ⟨data, rfl⟩)
          | ok encoded =>
            dsimp only
            cases runCmd (env.run (make_cmd session ["create", "item", encoded])) with
            | error e => exact Or.inr (Or.inr (Or.inl ⟨data, encoded, rfl⟩))
            | ok out =>
              dsimp only
              cases hsy : v.sync env session with
              | mk rs trS =>
                rw [hsy] at hsyncTr
                dsimp only at hsyncTr
                subst hsyncTr
                cases rs <;> exact Or.inr (Or.inr (Or.inr ⟨data, encoded, rfl⟩))
  · intro hok
    unfold BitwardenVault.create at hok ⊢
    cases hreq : createRequest (env.parseUrlHost index_url) index_url token name with
    | none =>
      rw [hreq] at hok
      exact absurd hok (by simp)
    | some request =>
      rw [hreq] at hok
      dsimp only at hok ⊢
      cases hser : env.serializeCreate request with
      | error e =>
        rw [hser] at hok
        exact absurd hok (by simp)
      | ok data =>
        rw [hser] at hok
        dsimp only at hok ⊢
        cases henc : v.encode env session data with
        | mk r trE =>
          rw [henc] at hok
          have htrE : trE = [Event.encodeCmd session data] := by
            have h := encode_trace v env session data
            rw [henc] at h
            exact h
          subst htrE
          cases r with
          | error e =>
            dsimp only at hok
            exact absurd hok (by simp)
          | ok encoded =>
            dsimp only at hok ⊢
            cases hr : runCmd (env.run (make_cmd session ["create", "item", encoded])) with
            | error e =>
              rw [hr] at hok
              exact absurd hok (by simp)
            | ok out =>
              rw [hr] at hok
              dsimp only at hok ⊢
              cases hsy : v.sync env session with
              | mk rs trS =>
                rw [hsy] at hok hsyncTr
                dsimp only at hsyncTr
                subst hsyncTr
                cases rs with
                | error e =>
                  dsimp only at hok
                  exact absurd hok (by simp)
                | ok u => exact ⟨data, encoded, rfl⟩

/-- Witness for the sync-ordering claim: without the flag sync is a no-op,
and with it a successful delete runs its sync strictly after the delete. -/
theorem sync_ordering_witness :
    sampleVault.sync sampleEnv none = (.ok (), []) ∧
    (syncVault.delete sampleEnv none "item-1").2 =
      [Event.deleteCmd none "item-1", Event.syncCmd none] := by
  constructor
  · exact (sync_ordering sampleVault sampleEnv none "u" "t" "i" sampleItem none).1 rfl
  · exact ((sync_ordering syncVault sampleEnv none "u" "t" "item-1" sampleItem
      none).2 rfl).2.2.1 rfl

/-- C2: a Fetch signs in first and then searches by the registry index URL;
a found item yields a Get response whose token is the item's
`login.password`, with the session-scoped cache hint and the
operation-independent flag set; no item yields the not-found error; and no
event of a Fetch ever creates, edits, or deletes a vault entry. -/
theorem perform_get_spec (registry : RegistryInfo) (args : List String) (env : Env) :
    (∀ e ∈ (perform registry .get args env).2, e.isMutation = false) ∧
    (∀ (v : BitwardenVault) (session : Option String),
      BitwardenVault.new args = .ok v → (v.signin env).1 = .ok session →
      (perform registry .get args env).2 =
        (v.signin env).2 ++ (v.search env session registry.index_url).2 ∧
      (∀ item, (v.search env session registry.index_url).1 = .ok (some item) →
        (perform registry .get args env).1 =
          .ok (.get item.login.password .session true)) ∧
      ((v.search env session registry.index_url).1 = .ok none →
        (perform registry .get args env).1 = .error .notFound)) := by
  constructor
  · unfold perform
    cases BitwardenVault.new args with
    | error e => simp
    | ok op =>
      dsimp only
      cases hsg : op.signin env with
      | mk rs tr0 =>
        have h0 : ∀ e ∈ tr0, e.isMutation = false := by
          have h := signin_mutfree op env
          rw [hsg] at h
          exact h
        cases rs with
        | error e => exact h0
        | ok session =>
          dsimp only
          cases hsr : op.search env session registry.index_url with
          | mk rr tr1 =>
            have h1 : ∀ e ∈ tr1, e.isMutation = false := by
              have h := search_mutfree op env session registry.index_url
              rw [hsr] at h
              exact h
            have hboth : ∀ e ∈ tr0 ++ tr1, e.isMutation = false := by
              intro e he
              rcases List.mem_append.mp he with h' | h'
              · exact h0 e h'
              · exact h1 e h'
            cases rr with
            | error e => exact hboth
            | ok r =>
              cases r with
              | none => exact hboth
              | some item => exact hboth
  · intro v session hv hs
    have hpair : v.signin env = (Except.ok session, (v.signin env).2) := by
      rw [← hs]
    unfold perform
    rw [hv]
    dsimp only
    rw [hpair]
    dsimp only
    cases hsr : v.search env session registry.index_url with
    | mk rr tr1 =>
      cases rr with
      | error e =>
        refine ⟨rfl, fun item hitem => absurd hitem (by simp), fun hnone => absurd hnone (by simp)⟩
      | ok r =>
        cases r with
        | none =>
          refine ⟨rfl, fun item hitem => absurd hitem (by simp), fun _ => rfl⟩
        | some a =>
          refine ⟨rfl, fun item hitem => ?_, fun hnone => absurd hnone (by simp)⟩
          have : a = item := by
            simpa using hitem
          subst this
          rfl

/-- Witness for the Fetch claim: on a vault holding the sample item, Fetch
returns its password with the session cache hint and the
operation-independent flag. -/
theorem perform_get_spec_witness :
    (perform ⟨"https://example.com/index", none⟩ .get [] sampleEnv).1 =
      .ok (.get "tok-123" .session true) := by
  exact ((perform_get_spec ⟨"https://example.com/index", none⟩ [] sampleEnv).2
    sampleVault none rfl rfl).2.1 sampleItem rfl

/-- C3: a Store signs in, searches by the index URL, and reads the token
only after the search completes (the token-read event follows every search
event in the trace); with an existing item it modifies that item — its only
mutating command is the edit addressed by that item's id, never a create —
and with no item it creates for the index URL. -/
theorem perform_login_spec (registry : RegistryInfo) (args : List String) (env : Env)
    (v : BitwardenVault) (session : Option String)
    (hv : BitwardenVault.new args = .ok v)
    (hs : (v.signin env).1 = .ok session) :
    (∀ item, (v.search env session registry.index_url).1 = .ok (some item) →
      ∀ token, env.readTokenResult = .ok token →
        (perform registry .login args env).2 =
          (v.signin env).2 ++ (v.search env session registry.index_url).2
            ++ [Event.tokenRead] ++ (v.modify env session item token registry.name).2 ∧
        ((v.modify env session item token registry.name).1 = .ok () →
          (perform registry .login args env).1 = .ok .login) ∧
        (∀ e ∈ (perform registry .login args env).2, e.isMutation = true →
          ∃ enc, e = Event.editCmd session item.id enc)) ∧
    ((v.search env session registry.index_url).1 = .ok none →
      ∀ token, env.readTokenResult = .ok token →
        (perform registry .login args env).2 =
          (v.signin env).2 ++ (v.search env session registry.index_url).2
            ++ [Event.tokenRead]
            ++ (v.create env session registry.index_url token registry.name).2 ∧
        ((v.create env session registry.index_url token registry.name).1 = .ok () →
          (perform registry .login args env).1 = .ok .login)) := by
  have hpair : v.signin env = (Except.ok session, (v.signin env).2) := by
    rw [← hs]
  constructor
  · intro item hfound token htok
    have hspair : v.search env session registry.index_url =
        (Except.ok (some item), (v.search env session registry.index_url).2) := by
      rw [← hfound]
    unfold perform
    rw [hv]
    dsimp only
    rw [hpair]
    dsimp only
    rw [hspair]
    dsimp only
    rw [htok]
    dsimp only
    cases hm : v.modify env session item token registry.name with
    | mk rm tr2 =>
      have hmut : ∀ e ∈ tr2, e.isMutation = true → ∃ enc, e = Event.editCmd session item.id enc := by
        have h := modify_mut_only_edit v env session item token registry.name
        rw [hm] at h
        exact h
      have hsg : ∀ e ∈ (v.signin env).2, e.isMutation = false := signin_mutfree v env
      have hse : ∀ e ∈ (v.search env session registry.index_url).2, e.isMutation = false :=
        search_mutfree v env session registry.index_url
      have hmemb : ∀ e ∈ (v.signin env).2 ++ (v.search env session registry.index_url).2
          ++ [Event.tokenRead] ++ tr2, e.isMutation = true →
          ∃ enc, e = Event.editCmd session item.id enc := by
        intro e he hmu
        rcases List.mem_append.mp he with he' | he'
        · rcases List.mem_append.mp he' with he'' | he''
          · rcases List.mem_append.mp he'' with h3 | h3
            · rw [hsg e h3] at hmu
              exact absurd hmu (by simp)
            · rw [hse e h3] at hmu
              exact absurd hmu (by simp)
          · simp only [List.mem_singleton] at he''
            subst he''
            exact absurd hmu (by simp [Event.isMutation])
        · exact hmut e he' hmu
      cases rm with
      | error e =>
        exact ⟨rfl, fun hok => absurd hok (by simp), hmemb⟩
      | ok u =>
        exact ⟨rfl, fun _ => rfl, hmemb⟩
  · intro hnone token htok
    have hspair : v.search env session registry.index_url =
        (Except.ok none, (v.search env session registry.index_url).2) := by
      rw [← hnone]
    unfold perform
    rw [hv]
    dsimp only
    rw [hpair]
    dsimp only
    rw [hspair]
    dsimp only
    rw [htok]
    dsimp only
    cases hc : v.create env session registry.index_url token registry.name with
    | mk rc tr2 =>
      cases rc with
      | error e => exact ⟨rfl, fun hok => absurd hok (by simp)⟩
      | ok u => exact ⟨rfl, fun _ => rfl⟩

/-- Witness for the Store claim: on a vault holding the sample item, a Store
succeeds by modifying it in place. -/
theorem perform_login_spec_witness :
    (perform ⟨"https://example.com/index", none⟩ .login [] sampleEnv).1 = .ok .login := by
  exact ((perform_login_spec ⟨"https://example.com/index", none⟩ [] sampleEnv
    sampleVault none rfl rfl).1 sampleItem rfl "tok-456" rfl).2.1 rfl

end CargoBitwarden
